import Mathlib

set_option maxHeartbeats 1000000

/-!
Shallow embedding of the `assistant-stream` core: the orchestrating
controller (`AssistantStreamControllerImpl` in
`packages/assistant-stream/src/core/modules/assistant-stream.ts`) together
with the collaborators it is wired to (shared index counter, path
rewriters, merge stream, and the text / tool-call sub-controllers).

The controller itself is translated directly from the source.  The
collaborators' sources are not part of the repository snapshot, so they are
modelled from the specification (each such definition's doc comment starts
with `Modelled from the spec:`).

The controller runs single-threaded: every high-level call emits its chunks
synchronously before returning, so the observable behaviour is captured by
a deterministic state machine whose state records the merged output chunk
list, the shared counter, the registered sub-controllers, the current
append target, and the seal/close bookkeeping.
-/

/-- Modelled from the spec: the JSON value shape used for tool-call
arguments and results (`ReadonlyJSONValue` in the repository, whose source
is not in the snapshot). -/
inductive JSONValue where
  | null
  | bool (b : Bool)
  | num (n : Int)
  | str (s : String)
  | arr (elems : List JSONValue)
  | obj (fields : List (String × JSONValue))

/-- Modelled from the spec: one character of JSON string escaping, as
performed by the platform serializer (`JSON.stringify`). -/
def jsonEscapeChar (c : Char) : String :=
  if c = '"' then "\\\""
  else if c = '\\' then "\\\\"
  else if c = '\n' then "\\n"
  else if c = '\t' then "\\t"
  else if c = '\r' then "\\r"
  else String.singleton c

/-- Modelled from the spec: JSON string escaping. -/
def jsonEscape (s : String) : String :=
  String.join (s.toList.map jsonEscapeChar)

/-- Modelled from the spec: a JSON-quoted string. -/
def jsonQuote (s : String) : String := "\"" ++ jsonEscape s ++ "\""

mutual

/-- Modelled from the spec: the platform JSON serializer used by
`addToolCallPart` to turn the supplied `args` object into argument text
(`JSON.stringify`): no whitespace, object keys in insertion order. -/
def JSONValue.stringify : JSONValue → String
  | .null => "null"
  | .bool b => if b then "true" else "false"
  | .num n => toString n
  | .str s => jsonQuote s
  | .arr xs => "[" ++ stringifyElems xs ++ "]"
  | .obj fs => "\x7b" ++ stringifyFields fs ++ "\x7d"

/-- Modelled from the spec: comma-separated serialization of array
elements. -/
def stringifyElems : List JSONValue → String
  | [] => ""
  | [x] => x.stringify
  | x :: y :: rest => x.stringify ++ "," ++ stringifyElems (y :: rest)

/-- Modelled from the spec: comma-separated serialization of object
fields. -/
def stringifyFields : List (String × JSONValue) → String
  | [] => ""
  | [(k, v)] => jsonQuote k ++ ":" ++ v.stringify
  | (k, v) :: f :: rest => jsonQuote k ++ ":" ++ v.stringify ++ "," ++ stringifyFields (f :: rest)

end

/-- The `PartInit` descriptor announcing a new part (from
`AssistantStreamChunk.ts` / the controller source): its kind plus the
kind-specific metadata carried for tool calls. -/
inductive PartInit where
  | text
  | reasoning
  | toolCall (toolName : String) (toolCallId : String)
deriving DecidableEq

/-- The body (the `type` discriminator plus kind-specific payload) of one
chunk of the output sequence.  `partStart`, `partFinish` and `error` are
constructed literally in the controller source; the delta / finish /
result bodies are modelled from the spec's chunk taxonomy (text delta,
tool-call argument delta, argument-text close, tool-call result). -/
inductive ChunkBody where
  | partStart (part : PartInit)
  | textDelta (delta : String)
  | argsTextDelta (argsText : String)
  | argsTextFinish
  | toolResult (value : JSONValue) (isError : Option Bool)
  | partFinish
  | error (message : String)

/-- One chunk of the output sequence: a body plus a path (ordered list of
non-negative integers; the empty path is the root). -/
structure AssistantStreamChunk where
  body : ChunkBody
  path : List Nat

/-- The kind tag of the controller's implicit append target
(`"text" | "reasoning"` in the source). -/
inductive TKind where
  | text
  | reasoning
deriving DecidableEq

/-- Which sub-controller flavour a registered stream belongs to. -/
inductive SubKind where
  | textLike
  | toolCall
deriving DecidableEq

/-- The state of one sub-controller whose stream was registered with the
merge stream through a fixed path rewriter.  Modelled from the spec:
`index` is the fixed position the rewriter prefixes onto every chunk of
the sub-sequence, `closed` records whether the sub-sequence has finished,
`argsClosed` whether a tool-call's argument-text sub-stream was closed. -/
structure SubController where
  index : Nat
  kind : SubKind
  closed : Bool
  argsClosed : Bool
deriving DecidableEq

/-- The controller's `_append` field: the current implicit append target
(kind plus the identifier of its live sub-controller). -/
structure AppendTarget where
  kind : TKind
  id : Nat
deriving DecidableEq

/-- A record of one method call made on a sub-controller.  The sub-
controllers' own sources are not in the snapshot, so the calls the
orchestrator forwards to them are kept observable in the trace. -/
inductive SubCall where
  | append (id : Nat) (delta : String)
  | closeCall (id : Nat)
  | argsAppend (id : Nat) (text : String)
  | argsClose (id : Nat)
  | setResult (id : Nat) (value : JSONValue) (isError : Option Bool)

/-- The full observable state of one `AssistantStreamControllerImpl`
together with its owned merge stream and shared counter.

* `output` — the chunks forwarded to the merged output, in order;
* `counter` — the shared index generator's current value (modelled from
  the spec: monotonically increasing, read-then-increment, starting at 0);
* `draws` — the values drawn from the counter at each root part-start
  observation, in order (bookkeeping used to state the non-collision
  invariant);
* `subs` — the registered sub-controllers, identified by list position;
* `append` — the controller's `_append` field;
* `sealedFlag` — whether `seal()` has been called on the merge stream;
* `drained` — whether the merged output has fully closed (sealed and all
  registered sub-sequences finished); this is what `isSealed()` reports;
* `notifications` — how many times the one-shot close subscriber callback
  has been invoked;
* `subCalls` — the trace of method calls forwarded to sub-controllers. -/
structure CtrlState where
  output : List AssistantStreamChunk
  counter : Nat
  draws : List Nat
  subs : List SubController
  append : Option AppendTarget
  sealedFlag : Bool
  drained : Bool
  notifications : Nat
  subCalls : List SubCall

namespace AssistantStreamControllerImpl

/-- The freshly-constructed controller state (`new
AssistantStreamControllerImpl()`). -/
def initSt : CtrlState :=
  ⟨[], 0, [], [], none, false, false, 0, []⟩

/-- Whether a chunk is a part-start at the root path (the condition the
controller's `enqueue` tests before advancing the shared counter). -/
def isRootPartStart (c : AssistantStreamChunk) : Bool :=
  match c.body, c.path with
  | .partStart _, [] => true
  | _, _ => false

/-- Whether a chunk is an error chunk at the root path. -/
def isRootError (c : AssistantStreamChunk) : Bool :=
  match c.body, c.path with
  | .error _, [] => true
  | _, _ => false

/-- How many root-path error chunks an output list contains. -/
def rootErrorCount (out : List AssistantStreamChunk) : Nat :=
  (out.filter fun c => isRootError c).length

/-- How many root-path part-start chunks an output list contains. -/
def rootPartStartCount (out : List AssistantStreamChunk) : Nat :=
  (out.filter fun c => isRootPartStart c).length

/-- Modelled from the spec: the merge stream forwarding one chunk to the
merged output (`enqueue` on the merge stream).  Once the output has fully
closed no further chunk is accepted. -/
def mergerEnqueue (s : CtrlState) (c : AssistantStreamChunk) : CtrlState :=
  if s.drained then s else { s with output := s.output ++ [c] }

/-- Modelled from the spec: the merge stream's output closes once `seal()`
has been called and every registered sub-sequence has finished; once
closed it stays closed. -/
def refreshDrained (s : CtrlState) : CtrlState :=
  { s with drained := s.drained || (s.sealedFlag && s.subs.all fun c => c.closed) }

/-- Modelled from the spec: registering a new sub-sequence with the merge
stream (`addStream`).  After the output has fully closed no new source is
accepted, so a stream registered then is dead on arrival. -/
def mergerAddStream (s : CtrlState) (c : SubController) : CtrlState :=
  if s.drained then { s with subs := s.subs ++ [{ c with closed := true, argsClosed := true }] }
  else { s with subs := s.subs ++ [c] }

/-- Modelled from the spec: a text-like sub-controller's `append(delta)` —
emits a text delta chunk at the sub-sequence's root, which the fixed path
rewriter prefixes with the sub-controller's registered position.  A
finished sub-sequence emits nothing further. -/
def subAppend (s : CtrlState) (id : Nat) (delta : String) : CtrlState :=
  let s1 := { s with subCalls := s.subCalls ++ [SubCall.append id delta] }
  match s1.subs[id]? with
  | none => s1
  | some c => if c.closed then s1 else mergerEnqueue s1 ⟨.textDelta delta, [c.index]⟩

/-- Modelled from the spec: a text-like sub-controller's `close()` — emits
a terminal part-finish chunk and finishes the sub-sequence; closing an
already-finished sub-controller is a no-op. -/
def subClose (s : CtrlState) (id : Nat) : CtrlState :=
  let s1 := { s with subCalls := s.subCalls ++ [SubCall.closeCall id] }
  match s1.subs[id]? with
  | none => s1
  | some c =>
    if c.closed then s1
    else
      let s2 := mergerEnqueue s1 ⟨.partFinish, [c.index]⟩
      refreshDrained { s2 with subs := s2.subs.set id { c with closed := true } }

/-- Modelled from the spec: a tool-call sub-controller's
`argsText.append(text)` — emits an argument-text delta chunk. -/
def subArgsAppend (s : CtrlState) (id : Nat) (text : String) : CtrlState :=
  let s1 := { s with subCalls := s.subCalls ++ [SubCall.argsAppend id text] }
  match s1.subs[id]? with
  | none => s1
  | some c =>
    if c.closed || c.argsClosed then s1
    else mergerEnqueue s1 ⟨.argsTextDelta text, [c.index]⟩

/-- Modelled from the spec: a tool-call sub-controller's
`argsText.close()` — emits the argument-text close/finish chunk. -/
def subArgsClose (s : CtrlState) (id : Nat) : CtrlState :=
  let s1 := { s with subCalls := s.subCalls ++ [SubCall.argsClose id] }
  match s1.subs[id]? with
  | none => s1
  | some c =>
    if c.closed || c.argsClosed then s1
    else
      let s2 := mergerEnqueue s1 ⟨.argsTextFinish, [c.index]⟩
      { s2 with subs := s2.subs.set id { c with argsClosed := true } }

/-- Modelled from the spec: a tool-call sub-controller's
`setResult(value, isError)` — emits the result chunk. -/
def subSetResult (s : CtrlState) (id : Nat) (v : JSONValue) (isError : Option Bool) : CtrlState :=
  let s1 := { s with subCalls := s.subCalls ++ [SubCall.setResult id v isError] }
  match s1.subs[id]? with
  | none => s1
  | some c => if c.closed then s1 else mergerEnqueue s1 ⟨.toolResult v isError, [c.index]⟩

/-- Source `AssistantStreamControllerImpl.enqueue`: forward the chunk directly to
the merge stream; if it is a part-start at the root path, advance the
shared content counter (drawing the counter's current value). -/
def enqueue (s : CtrlState) (c : AssistantStreamChunk) : CtrlState :=
  let s1 := mergerEnqueue s c
  if isRootPartStart c then
    { s1 with counter := s1.counter + 1, draws := s1.draws ++ [s1.counter] }
  else s1

/-- The first half of `_addPart`: close the current append target, if any,
and clear the `_append` field. -/
def closeCurrentTarget (s : CtrlState) : CtrlState :=
  match s.append with
  | some t => { subClose s t.id with append := none }
  | none => s

/-- Source `AssistantStreamControllerImpl._addPart`: close the current append
target, enqueue a part-start chunk at the root path (which advances the
shared counter), and register the new part's sub-sequence with the merge
stream behind a fixed path rewriter whose position is the counter's value
at registration time.  Returns the new sub-controller's identifier. -/
def addPart (s : CtrlState) (part : PartInit) (kind : SubKind) : CtrlState × Nat :=
  let s1 := enqueue (closeCurrentTarget s) ⟨.partStart part, []⟩
  (mergerAddStream s1 ⟨s1.counter, kind, false, false⟩, s1.subs.length)

/-- Source `AssistantStreamControllerImpl.addTextPart`. -/
def addTextPart (s : CtrlState) : CtrlState × Nat :=
  addPart s .text .textLike

/-- Source `AssistantStreamControllerImpl.addReasoningPart`. -/
def addReasoningPart (s : CtrlState) : CtrlState × Nat :=
  addPart s .reasoning .textLike

/-- Source `AssistantStreamControllerImpl.appendText`: if the current append
target is not a text part, start a new text part and make it the target;
then forward the delta to the target's `append`. -/
def appendText (s : CtrlState) (delta : String) : CtrlState :=
  match s.append with
  | some ⟨.text, id⟩ => subAppend s id delta
  | _ =>
    let r := addTextPart s
    subAppend { r.1 with append := some ⟨.text, r.2⟩ } r.2 delta

/-- Source `AssistantStreamControllerImpl.appendReasoning`: the mirror image of
`appendText` for reasoning parts. -/
def appendReasoning (s : CtrlState) (delta : String) : CtrlState :=
  match s.append with
  | some ⟨.reasoning, id⟩ => subAppend s id delta
  | _ =>
    let r := addReasoningPart s
    subAppend { r.1 with append := some ⟨.reasoning, r.2⟩ } r.2 delta

/-- The structured options value accepted by `addToolCallPart`. -/
structure ToolCallOptions where
  toolCallId : Option String
  toolName : String
  args : Option (List (String × JSONValue))
  result : Option JSONValue
  isError : Option Bool

/-- The string-or-options overload of `addToolCallPart`. -/
inductive ToolCallArg where
  | name (toolName : String)
  | options (opt : ToolCallOptions)

/-- The normalization step at the top of `addToolCallPart`
(`typeof options === "string" ? { toolName: options } : options`). -/
def normalizeToolCallArg : ToolCallArg → ToolCallOptions
  | .name n => ⟨none, n, none, none, none⟩
  | .options o => o

/-- Source `AssistantStreamControllerImpl.addToolCallPart`: normalize the
argument; synthesize a tool-call identifier via the identifier-generation
collaborator when none was supplied (`genId` is the value that collaborator
returns); start a tool-call part; if `args` was supplied, serialize it and
append+close it as the argument text immediately; if `result` was
supplied, invoke `setResult` immediately.  Returns the sub-controller's
identifier. -/
def addToolCallPart (s : CtrlState) (genId : String) (arg : ToolCallArg) : CtrlState × Nat :=
  let opt := normalizeToolCallArg arg
  let toolCallId := opt.toolCallId.getD genId
  let r := addPart s (.toolCall opt.toolName toolCallId) .toolCall
  let s1 := match opt.args with
    | some a => subArgsClose (subArgsAppend r.1 r.2 (JSONValue.stringify (.obj a))) r.2
    | none => r.1
  let s2 := match opt.result with
    | some v => subSetResult s1 r.2 v opt.isError
    | none => s1
  (s2, r.2)

/-- The result of running the dynamic path rewriter over an
externally-supplied, already-complete sequence: the counter's final value,
the rewritten chunks, and the values drawn from the counter (one per
top-level part-start observed). -/
structure MergeResult where
  ctr : Nat
  chunks : List AssistantStreamChunk
  draws : List Nat

/-- Modelled from the spec: the dynamic path rewriter (`PathMergeEncoder`).
For each chunk of the external sequence: if it is a part-start at the
empty path, draw a fresh value from the shared counter and remember the
mapping from that part's original prefix to the drawn value; rewrite this
and all subsequent chunks of the same sub-tree by substituting the drawn
value as the new first path segment.  The external sequence is assumed to
identify its `i`-th top-level part (0-based, in part-start order) by first
path segment `i` on the part's inner chunks. -/
def mergeRewrite (ctr : Nat) (map : List Nat) : List AssistantStreamChunk → MergeResult
  | [] => ⟨ctr, [], []⟩
  | c :: rest =>
    if isRootPartStart c then
      let r := mergeRewrite (ctr + 1) (map ++ [ctr]) rest
      ⟨r.ctr, ⟨c.body, [ctr]⟩ :: r.chunks, ctr :: r.draws⟩
    else
      let newPath := match c.path with
        | [] => ([] : List Nat)
        | h :: t => ((map[h]?).getD h) :: t
      let r := mergeRewrite ctr map rest
      ⟨r.ctr, ⟨c.body, newPath⟩ :: r.chunks, r.draws⟩

/-- Source `AssistantStreamControllerImpl.merge`: register an externally-produced,
already-complete sequence with the merge stream behind the dynamic path
rewriter sharing the controller's counter.  After the output has fully
closed no new source is accepted. -/
def merge (s : CtrlState) (ext : List AssistantStreamChunk) : CtrlState :=
  if s.drained then s
  else
    let r := mergeRewrite s.counter [] ext
    { s with counter := r.ctr, output := s.output ++ r.chunks, draws := s.draws ++ r.draws }

/-- Source `AssistantStreamControllerImpl.close`: seal the merge stream, close the
current append target's sub-controller (without clearing the `_append`
field), and invoke the close subscriber callback. -/
def close (s : CtrlState) : CtrlState :=
  let s1 := refreshDrained { s with sealedFlag := true }
  let s2 := match s1.append with
    | some t => subClose s1 t.id
    | none => s1
  { s2 with notifications := s2.notifications + 1 }

/-- Source `AssistantStreamControllerImpl.__internal_isClosed`, i.e. the merge
stream's `isSealed()`: true once the merged output has fully closed. -/
def isClosed (s : CtrlState) : Bool := s.drained

/-- One high-level call a driving computation can make on the controller
(or, for the `sub…` constructors, on a sub-controller it was handed). -/
inductive Command where
  | appendText (delta : String)
  | appendReasoning (delta : String)
  | addTextPart
  | addReasoningPart
  | addToolCallPart (genId : String) (arg : ToolCallArg)
  | enqueue (c : AssistantStreamChunk)
  | merge (ext : List AssistantStreamChunk)
  | close
  | subAppend (id : Nat) (delta : String)
  | subClose (id : Nat)
  | subArgsAppend (id : Nat) (text : String)
  | subArgsClose (id : Nat)
  | subSetResult (id : Nat) (v : JSONValue) (isError : Option Bool)

/-- Interpret one command on the controller state. -/
def execCommand (s : CtrlState) : Command → CtrlState
  | .appendText d => appendText s d
  | .appendReasoning d => appendReasoning s d
  | .addTextPart => (addTextPart s).1
  | .addReasoningPart => (addReasoningPart s).1
  | .addToolCallPart genId arg => (addToolCallPart s genId arg).1
  | .enqueue c => enqueue s c
  | .merge ext => merge s ext
  | .close => close s
  | .subAppend id d => subAppend s id d
  | .subClose id => subClose s id
  | .subArgsAppend id t => subArgsAppend s id t
  | .subArgsClose id => subArgsClose s id
  | .subSetResult id v e => subSetResult s id v e

/-- Run a driving computation, given as the list of controller calls it
makes, on a state. -/
def runProg (prog : List Command) (s : CtrlState) : CtrlState :=
  prog.foldl execCommand s

/-- The outcome of the stream-creation entry point: the final controller
state plus the failure re-raised to the caller, if any. -/
structure StreamResult where
  state : CtrlState
  thrown : Option String

/-- Source `createAssistantStream`, synchronous paths: run the driving
computation; if it throws (`syncError = some e`) and the stream is not
already closed, enqueue a root-path error chunk, close, and re-raise; if
it returns without a deferred result, close the stream unless it is
already closed. -/
def createAssistantStream (prog : List Command) (syncError : Option String) : StreamResult :=
  let s := runProg prog initSt
  match syncError with
  | some e =>
    if isClosed s then ⟨s, some e⟩
    else ⟨close (enqueue s ⟨.error e, []⟩), some e⟩
  | none => if isClosed s then ⟨s, none⟩ else ⟨close s, none⟩

/-- Source `createAssistantStream`, asynchronous path: the driving computation
returned a deferred result which later settles after having made the given
controller calls.  On rejection (`rejection = some e`): if the stream is
not already closed, enqueue a root-path error chunk; then (in the
`finally` step) close the stream unless it is already closed; the
rejection is re-raised.  On resolution: close unless already closed. -/
def createAssistantStreamAsync (prog : List Command) (rejection : Option String) :
    StreamResult :=
  let s := runProg prog initSt
  match rejection with
  | some e =>
    let s1 := if isClosed s then s else enqueue s ⟨.error e, []⟩
    let s2 := if isClosed s1 then s1 else close s1
    ⟨s2, some e⟩
  | none => ⟨if isClosed s then s else close s, none⟩

/-- The kind-indexed implicit append entry point: `appendText` for text,
`appendReasoning` for reasoning. -/
def appendDelta : TKind → CtrlState → String → CtrlState
  | .text, s, d => appendText s d
  | .reasoning, s, d => appendReasoning s d

/-- The `PartInit` a fresh implicit append target of the given kind is
announced with. -/
def partInitOf : TKind → PartInit
  | .text => .text
  | .reasoning => .reasoning

/-- Whether the current append target is absent or of a kind other than
`k` (the condition under which an implicit append of kind `k` starts a new
part). -/
def targetNotKind (s : CtrlState) (k : TKind) : Prop :=
  match s.append with
  | some t => t.kind ≠ k
  | none => True

instance (s : CtrlState) (k : TKind) : Decidable (targetNotKind s k) := by
  unfold targetNotKind
  match s.append with
  | some t => exact inferInstanceAs (Decidable (t.kind ≠ k))
  | none => exact inferInstanceAs (Decidable True)

end AssistantStreamControllerImpl

namespace AssistantStreamControllerImpl

/-- Looking up the first of two elements appended to a list. -/
theorem getElem?_append_two_left {α : Type _} (l : List α) (a b : α) :
    (l ++ [a, b])[l.length]? = some a := by
  rw [List.getElem?_append_right (by omega)]
  simp

/-- Looking up the second of two elements appended to a list. -/
theorem getElem?_append_two_right {α : Type _} (l : List α) (a b : α) :
    (l ++ [a, b])[l.length + 1]? = some b := by
  rw [List.getElem?_append_right (by omega)]
  simp

/-- Looking up the first of two elements appended to a list (total form). -/
theorem getElem_append_two_left {α : Type _} (l : List α) (a b : α)
    (h : l.length < (l ++ [a, b]).length) : (l ++ [a, b])[l.length] = a := by
  rw [List.getElem_append_right (by omega)]
  simp

/-- Looking up the second of two elements appended to a list (total form). -/
theorem getElem_append_two_right {α : Type _} (l : List α) (a b : α)
    (h : l.length + 1 < (l ++ [a, b]).length) : (l ++ [a, b])[l.length + 1] = b := by
  rw [List.getElem_append_right (by omega)]
  simp

/-- Claim C5: two consecutive `appendText` calls with no intervening part
creation or kind switch — from any controller state with no current append
target and an open stream — yield exactly one part-start chunk of text
kind followed by the two text deltas, in order, on the same freshly
assigned position; never two separate parts. -/
theorem claim_C5 (out : List AssistantStreamChunk) (ctr : Nat) (draws : List Nat)
    (subs : List SubController) (sf : Bool) (n : Nat) (calls : List SubCall)
    (a b : String) :
    (appendText (appendText ⟨out, ctr, draws, subs, none, sf, false, n, calls⟩ a) b).output =
      out ++ [⟨.partStart .text, []⟩, ⟨.textDelta a, [ctr + 1]⟩, ⟨.textDelta b, [ctr + 1]⟩] ∧
    rootPartStartCount
        (appendText (appendText ⟨out, ctr, draws, subs, none, sf, false, n, calls⟩ a) b).output =
      rootPartStartCount out + 1 := by
  constructor
  · simp [appendText, addTextPart, addPart, closeCurrentTarget, enqueue, mergerEnqueue,
      mergerAddStream, subAppend, isRootPartStart, List.getElem?_concat_length]
  · simp [appendText, addTextPart, addPart, closeCurrentTarget, enqueue, mergerEnqueue,
      mergerAddStream, subAppend, isRootPartStart, List.getElem?_concat_length,
      rootPartStartCount, List.filter_append]

/-- Claim C6: `appendText "a"` followed by `appendReasoning "b"` — from
any controller state with no current append target and an unsealed, open
stream — yields two parts, and the text part's finish chunk appears in the
output strictly before the reasoning part's start chunk. -/
theorem claim_C6 (out : List AssistantStreamChunk) (ctr : Nat) (draws : List Nat)
    (subs : List SubController) (n : Nat) (calls : List SubCall) (a b : String) :
    (appendReasoning
        (appendText ⟨out, ctr, draws, subs, none, false, false, n, calls⟩ a) b).output =
      out ++ [⟨.partStart .text, []⟩, ⟨.textDelta a, [ctr + 1]⟩, ⟨.partFinish, [ctr + 1]⟩,
        ⟨.partStart .reasoning, []⟩, ⟨.textDelta b, [ctr + 2]⟩] ∧
    rootPartStartCount
        (appendReasoning
          (appendText ⟨out, ctr, draws, subs, none, false, false, n, calls⟩ a) b).output =
      rootPartStartCount out + 2 := by
  constructor
  · simp [appendText, appendReasoning, addTextPart, addReasoningPart, addPart,
      closeCurrentTarget, enqueue, mergerEnqueue, mergerAddStream, subAppend, subClose,
      refreshDrained, isRootPartStart, List.getElem?_concat_length,
      getElem?_append_two_left, getElem?_append_two_right,
      getElem_append_two_left, getElem_append_two_right]
  · simp [appendText, appendReasoning, addTextPart, addReasoningPart, addPart,
      closeCurrentTarget, enqueue, mergerEnqueue, mergerAddStream, subAppend, subClose,
      refreshDrained, isRootPartStart, List.getElem?_concat_length,
      getElem?_append_two_left, getElem?_append_two_right,
      getElem_append_two_left, getElem_append_two_right,
      rootPartStartCount, List.filter_append]

/-- Claim C1: `addToolCallPart` with a structured options value carrying
`toolName "x"`, `args` the object with single field `a` having value 1, a
`result` of 5, and no caller-supplied `toolCallId` — from any controller
state with no current append target and an open stream — yields, in
order: a part-start chunk for a tool-call part carrying the synthesized
identifier, an argument-text delta equal to the JSON-serialized form of
the args object, the argument-text close/finish, and the result chunk
carrying 5, all emitted before the operation returns. -/
theorem claim_C1 (out : List AssistantStreamChunk) (ctr : Nat) (draws : List Nat)
    (subs : List SubController) (sf : Bool) (n : Nat) (calls : List SubCall)
    (genId : String) :
    (addToolCallPart ⟨out, ctr, draws, subs, none, sf, false, n, calls⟩ genId
        (.options ⟨none, "x", some [("a", .num 1)], some (.num 5), none⟩)).1.output =
      out ++ [⟨.partStart (.toolCall "x" genId), []⟩,
        ⟨.argsTextDelta "\x7b\"a\":1\x7d", [ctr + 1]⟩,
        ⟨.argsTextFinish, [ctr + 1]⟩,
        ⟨.toolResult (.num 5) none, [ctr + 1]⟩] ∧
    JSONValue.stringify (.obj [("a", .num 1)]) = "\x7b\"a\":1\x7d" := by
  have hstr : JSONValue.stringify (.obj [("a", .num 1)]) = "\x7b\"a\":1\x7d" := by decide
  refine ⟨?_, hstr⟩
  simp [addToolCallPart, normalizeToolCallArg, addPart, closeCurrentTarget, enqueue,
    mergerEnqueue, mergerAddStream, subArgsAppend, subArgsClose, subSetResult,
    isRootPartStart, List.getElem?_concat_length, hstr]

/-- The operation `subClose` leaves every controller field except `output`, `subs`,
`drained` and `subCalls` unchanged, keeps the number of registered
sub-controllers, and only ever appends a part-finish chunk (never a
part-start and never an error) to the output. -/
theorem subClose_frame (s : CtrlState) (id : Nat) :
    (subClose s id).append = s.append ∧ (subClose s id).counter = s.counter ∧
    (subClose s id).draws = s.draws ∧ (subClose s id).sealedFlag = s.sealedFlag ∧
    (subClose s id).notifications = s.notifications ∧
    (subClose s id).subs.length = s.subs.length ∧
    ∃ t, (subClose s id).output = s.output ++ t ∧
      ∀ c ∈ t, isRootPartStart c = false ∧ isRootError c = false := by
  cases hc : s.subs[id]? with
  | none =>
    refine ⟨?_, ?_, ?_, ?_, ?_, ?_, [], ?_, by simp⟩ <;> simp [subClose, hc]
  | some c =>
    by_cases h : c.closed = true
    · refine ⟨?_, ?_, ?_, ?_, ?_, ?_, [], ?_, by simp⟩ <;> simp [subClose, hc, h]
    · by_cases hd : s.drained = true
      · refine ⟨?_, ?_, ?_, ?_, ?_, ?_, [], ?_, by simp⟩ <;>
          simp [subClose, hc, h, mergerEnqueue, refreshDrained, hd]
      · refine ⟨?_, ?_, ?_, ?_, ?_, ?_, [⟨.partFinish, [c.index]⟩], ?_, ?_⟩ <;>
          simp [subClose, hc, h, mergerEnqueue, refreshDrained, hd,
            isRootPartStart, isRootError]

/-- Closing an unsealed controller's sub-stream cannot drain the merged
output. -/
theorem subClose_drained_of_unsealed (s : CtrlState) (id : Nat)
    (h2 : s.drained = false) (h3 : s.sealedFlag = false) :
    (subClose s id).drained = false := by
  cases hc : s.subs[id]? with
  | none => simp [subClose, hc, h2]
  | some c =>
    by_cases h : c.closed = true
    · simp [subClose, hc, h, h2]
    · simp [subClose, hc, h, mergerEnqueue, refreshDrained, h2, h3]

/-- After `subClose`, the targeted sub-controller (when registered) is
recorded as closed. -/
theorem subClose_get_self (s : CtrlState) (id : Nat) :
    (subClose s id).subs[id]? = (s.subs[id]?).map fun c => { c with closed := true } := by
  cases hc : s.subs[id]? with
  | none => simp [subClose, hc]
  | some c =>
    by_cases h : c.closed = true
    · obtain ⟨ci, ck, cc, ca⟩ := c
      simp only at h
      subst h
      simp [subClose, hc]
    · simp [subClose, hc, h, mergerEnqueue, refreshDrained]
      by_cases hd : s.drained = true <;>
        simp [hd, List.getElem?_set_self', hc, Function.const]

/-- The operation `subClose` on a sub-controller that is already closed (or not
registered) changes nothing but the call trace. -/
theorem subClose_closed_noop (s : CtrlState) (id : Nat)
    (h : ∀ c, s.subs[id]? = some c → c.closed = true) :
    (subClose s id).output = s.output ∧ (subClose s id).subs = s.subs ∧
    (subClose s id).drained = s.drained := by
  cases hc : s.subs[id]? with
  | none => refine ⟨?_, ?_, ?_⟩ <;> simp [subClose, hc]
  | some c =>
    have := h c hc
    refine ⟨?_, ?_, ?_⟩ <;> simp [subClose, hc, this]

/-- The operation `merge` touches only the counter, the draw bookkeeping and the output:
the registered sub-controllers, the append target and the seal/close state
are untouched. -/
theorem merge_frame (s : CtrlState) (ext : List AssistantStreamChunk) :
    (merge s ext).append = s.append ∧ (merge s ext).subs = s.subs ∧
    (merge s ext).drained = s.drained ∧ (merge s ext).sealedFlag = s.sealedFlag ∧
    (merge s ext).subCalls = s.subCalls := by
  by_cases hd : s.drained = true <;>
    refine ⟨?_, ?_, ?_, ?_, ?_⟩ <;> simp [merge, hd]

/-- The operation `close` seals the stream, bumps the subscriber-notification count,
preserves the append target, the counter and the draw bookkeeping, and
only ever appends a part-finish chunk to the output. -/
theorem close_frame (s : CtrlState) :
    (close s).append = s.append ∧ (close s).counter = s.counter ∧
    (close s).draws = s.draws ∧ (close s).sealedFlag = true ∧
    (close s).notifications = s.notifications + 1 ∧
    (close s).subs.length = s.subs.length ∧
    ∃ t, (close s).output = s.output ++ t ∧
      ∀ c ∈ t, isRootPartStart c = false ∧ isRootError c = false := by
  cases hap : s.append with
  | none =>
    refine ⟨?_, ?_, ?_, ?_, ?_, ?_, [], ?_, by simp⟩ <;>
      simp [close, refreshDrained, hap]
  | some t =>
    have hfr := subClose_frame (refreshDrained { s with sealedFlag := true }) t.id
    obtain ⟨h1, h2, h3, h4, h5, h6, tl, h7, h8⟩ := hfr
    have hred : (refreshDrained { s with sealedFlag := true }).append = some t := by
      simp [refreshDrained, hap]
    refine ⟨?_, ?_, ?_, ?_, ?_, ?_, tl, ?_, h8⟩ <;>
      simp [close, hap, hred, refreshDrained] at h1 h2 h3 h4 h5 h6 h7 ⊢ <;>
      simp [h1, h2, h3, h4, h5, h6, h7]

/-- The operation `subClose` leaves the append target unchanged. -/
theorem subClose_append (s : CtrlState) (id : Nat) :
    (subClose s id).append = s.append := (subClose_frame s id).1

/-- The operation `subClose` leaves the counter unchanged. -/
theorem subClose_counter (s : CtrlState) (id : Nat) :
    (subClose s id).counter = s.counter := (subClose_frame s id).2.1

/-- The operation `subClose` leaves the draw bookkeeping unchanged. -/
theorem subClose_draws (s : CtrlState) (id : Nat) :
    (subClose s id).draws = s.draws := (subClose_frame s id).2.2.1

/-- The operation `subClose` leaves the seal flag unchanged. -/
theorem subClose_sealedFlag (s : CtrlState) (id : Nat) :
    (subClose s id).sealedFlag = s.sealedFlag := (subClose_frame s id).2.2.2.1

/-- The operation `subClose` leaves the notification count unchanged. -/
theorem subClose_notifications (s : CtrlState) (id : Nat) :
    (subClose s id).notifications = s.notifications := (subClose_frame s id).2.2.2.2.1

/-- The operation `subClose` keeps the number of registered sub-controllers. -/
theorem subClose_subsLength (s : CtrlState) (id : Nat) :
    (subClose s id).subs.length = s.subs.length := (subClose_frame s id).2.2.2.2.2.1

/-- After `close`, re-evaluating the merge stream's drain condition
changes nothing: the drained flag is stable. -/
theorem close_drainSync (s : CtrlState) :
    ((close s).drained || ((close s).sealedFlag && (close s).subs.all fun c => c.closed)) =
      (close s).drained := by
  cases hap : s.append with
  | none =>
    simp only [close, refreshDrained, hap]
    simp [Bool.or_assoc]
  | some t =>
    simp only [close, refreshDrained, hap]
    cases hc : s.subs[t.id]? with
    | none => simp [subClose, hc, Bool.or_assoc]
    | some c =>
      by_cases h : c.closed = true
      · simp [subClose, hc, h, Bool.or_assoc]
      · simp [subClose, hc, h, mergerEnqueue, refreshDrained, Bool.or_assoc]

/-- After `close`, the append target's sub-controller (when registered) is
recorded as closed. -/
theorem close_subs_get (s : CtrlState) (t : AppendTarget) (h : s.append = some t) :
    (close s).subs[t.id]? = (s.subs[t.id]?).map fun c => { c with closed := true } := by
  simp only [close, refreshDrained, h]
  rw [subClose_get_self]

/-- A fully-settled controller (sealed, drain condition stable, append
target's sub-controller already closed) is left untouched by `close`,
except that the close-subscriber callback is invoked once more. -/
theorem close_settled (s : CtrlState)
    (hsf : s.sealedFlag = true)
    (hsync : (s.drained || s.subs.all fun c => c.closed) = s.drained)
    (htgt : ∀ t, s.append = some t → ∀ c, s.subs[t.id]? = some c → c.closed = true) :
    (close s).output = s.output ∧ (close s).drained = s.drained ∧
    (close s).subs = s.subs ∧ (close s).append = s.append ∧
    (close s).notifications = s.notifications + 1 ∧ (close s).sealedFlag = true := by
  cases hap : s.append with
  | none =>
    simp only [close, refreshDrained, hap]
    simp [hsf, hsync]
  | some t =>
    have hnoop := subClose_closed_noop
      ⟨s.output, s.counter, s.draws, s.subs, some t, true,
        s.drained, s.notifications, s.subCalls⟩
      t.id (by intro c hc; exact htgt t hap c (by simpa using hc))
    obtain ⟨ho, hs, hd⟩ := hnoop
    have ha := subClose_append
      ⟨s.output, s.counter, s.draws, s.subs, some t, true,
        s.drained, s.notifications, s.subCalls⟩ t.id
    have hn := subClose_notifications
      ⟨s.output, s.counter, s.draws, s.subs, some t, true,
        s.drained, s.notifications, s.subCalls⟩ t.id
    have hf := subClose_sealedFlag
      ⟨s.output, s.counter, s.draws, s.subs, some t, true,
        s.drained, s.notifications, s.subCalls⟩ t.id
    simp only [close, refreshDrained, hap, hsf]
    simp only at ho hs hd ha hn hf
    refine ⟨?_, ?_, ?_, ?_, ?_, ?_⟩ <;> simp [hsync, ho, hs, hd, ha, hn, hf, hap]

/-- Claim C2 counterexample: on a freshly-constructed controller, calling
`close()` a second time does invoke the close-subscriber callback again
(the notification count goes from 1 to 2), so the second call is not a
complete no-op towards the subscriber. -/
theorem claim_C2_counterexample :
    ¬ ((close (close initSt)).notifications = (close initSt).notifications) := by
  decide

/-- Claim C2 (amended): calling `close()` a second time emits no further
chunk, does not seal or drain the stream a second time (the merged output,
the registered sub-streams and the drained flag are all unchanged, so no
second terminal signal is produced) and raises no error — but it does
invoke the close-subscriber callback once more; the practical subscriber
is a one-shot promise resolver, for which the repeated invocation has no
effect. -/
theorem claim_C2_amended (s : CtrlState) :
    (close (close s)).output = (close s).output ∧
    (close (close s)).drained = (close s).drained ∧
    (close (close s)).sealedFlag = true ∧
    (close (close s)).subs = (close s).subs ∧
    (close (close s)).append = (close s).append ∧
    (close (close s)).notifications = (close s).notifications + 1 := by
  obtain ⟨hap1, _, _, hsf1, _, _, _⟩ := close_frame s
  have hsync : ((close s).drained || (close s).subs.all fun c => c.closed) = (close s).drained := by
    have := close_drainSync s
    simpa [hsf1] using this
  have htgt : ∀ t, (close s).append = some t →
      ∀ c, (close s).subs[t.id]? = some c → c.closed = true := by
    intro t ht c hc
    rw [hap1] at ht
    rw [close_subs_get s t ht] at hc
    cases hcs : s.subs[t.id]? with
    | none => rw [hcs] at hc; simp at hc
    | some c0 => rw [hcs] at hc; simp at hc; rw [← hc]
  obtain ⟨h1, h2, h3, h4, h5, h6⟩ := close_settled (close s) hsf1 hsync htgt
  exact ⟨h1, h2, h6, h3, h4, h5⟩

/-- Claim C9: `merge` leaves the current append target undisturbed — it
neither closes nor replaces the target's sub-controller — so a subsequent
implicit append of the same kind continues the existing part, emitting
only the delta chunk (no new part-start). -/
theorem claim_C9 (k : TKind) (s : CtrlState) (ext : List AssistantStreamChunk)
    (d : String) (id : Nat) (c0 : SubController)
    (h1 : s.append = some ⟨k, id⟩) (h2 : s.subs[id]? = some c0)
    (h3 : c0.closed = false) (h4 : s.drained = false) :
    (merge s ext).append = s.append ∧ (merge s ext).subs = s.subs ∧
    (appendDelta k (merge s ext) d).output =
      (merge s ext).output ++ [⟨.textDelta d, [c0.index]⟩] ∧
    (appendDelta k (merge s ext) d).append = s.append := by
  obtain ⟨hap, hsubs, hdr, _, _⟩ := merge_frame s ext
  rw [h1] at hap
  rw [h4] at hdr
  refine ⟨by rw [hap, h1], hsubs, ?_, ?_⟩ <;> cases k <;>
    simp [appendDelta, appendText, appendReasoning, hap, subAppend, hsubs, h2, h3,
      mergerEnqueue, hdr, h1]

/-- Claim C10: `close()` does not clear the `_append` field, so after
`close()` an implicit append of the target's kind starts no new part and
emits nothing — it merely forwards the delta to the previously closed
sub-controller (whose sub-stream has already finished). -/
theorem claim_C10 (k : TKind) (s : CtrlState) (d : String) (id : Nat)
    (c0 : SubController)
    (h1 : s.append = some ⟨k, id⟩) (h2 : s.subs[id]? = some c0) :
    ((close s).subs[id]?).map (fun c => c.closed) = some true ∧
    (appendDelta k (close s) d).output = (close s).output ∧
    (appendDelta k (close s) d).subCalls = (close s).subCalls ++ [SubCall.append id d] ∧
    (appendDelta k (close s) d).append = s.append := by
  have hget : (close s).subs[id]? = some { c0 with closed := true } := by
    have := close_subs_get s ⟨k, id⟩ h1
    simp only at this
    rw [this, h2]
    rfl
  have hap : (close s).append = some (⟨k, id⟩ : AppendTarget) := by
    rw [(close_frame s).1, h1]
  refine ⟨by rw [hget]; rfl, ?_, ?_, ?_⟩ <;> cases k <;>
    simp [appendDelta, appendText, appendReasoning, hap, subAppend, hget, h1]

/-- Forwarding a delta to an open, registered sub-controller appends
exactly the prefixed delta chunk and changes nothing else observable. -/
theorem subAppend_open (s : CtrlState) (id : Nat) (d : String) (c0 : SubController)
    (h : s.subs[id]? = some c0) (hc : c0.closed = false) (hd : s.drained = false) :
    (subAppend s id d).output = s.output ++ [⟨.textDelta d, [c0.index]⟩] ∧
    (subAppend s id d).subs = s.subs ∧ (subAppend s id d).append = s.append ∧
    (subAppend s id d).counter = s.counter := by
  refine ⟨?_, ?_, ?_, ?_⟩ <;> simp [subAppend, h, hc, mergerEnqueue, hd]

/-- The operation `_addPart` on an open, unsealed controller: closes the current append
target (emitting no part-start while doing so), enqueues one part-start
chunk at the root, advances the shared counter by exactly one, and
registers a fresh open sub-controller — at identifier `s.subs.length` —
whose fixed path-rewriter position is the counter's new value. -/
theorem addPart_spec (s : CtrlState) (part : PartInit) (kind : SubKind)
    (h2 : s.drained = false) (h3 : s.sealedFlag = false) :
    (addPart s part kind).1.counter = s.counter + 1 ∧
    (addPart s part kind).1.subs.length = s.subs.length + 1 ∧
    (addPart s part kind).1.subs[s.subs.length]? =
      some ⟨s.counter + 1, kind, false, false⟩ ∧
    (addPart s part kind).2 = s.subs.length ∧
    (addPart s part kind).1.append = none ∧
    (addPart s part kind).1.drained = false ∧
    ∃ pre, (addPart s part kind).1.output =
        s.output ++ pre ++ [⟨.partStart part, []⟩] ∧
      ∀ c ∈ pre, isRootPartStart c = false := by
  cases hap : s.append with
  | none =>
    have e2 : closeCurrentTarget s = s := by
      unfold closeCurrentTarget
      rw [hap]
    refine ⟨?_, ?_, ?_, ?_, ?_, ?_, [], ?_, by simp⟩ <;>
      simp [addPart, e2, enqueue, mergerEnqueue, mergerAddStream, isRootPartStart, h2,
        hap, List.getElem?_concat_length]
  | some t =>
    have e2 : closeCurrentTarget s = { subClose s t.id with append := none } := by
      unfold closeCurrentTarget
      rw [hap]
    obtain ⟨_, hcnt, _, _, _, hlen, pre, hout, hpre⟩ := subClose_frame s t.id
    have hdr : (subClose s t.id).drained = false :=
      subClose_drained_of_unsealed s t.id h2 h3
    have hget := List.getElem?_concat_length (subClose s t.id).subs
      (⟨s.counter + 1, kind, false, false⟩ : SubController)
    rw [hlen] at hget
    refine ⟨?_, ?_, ?_, ?_, ?_, ?_, pre, ?_, fun c hc => (hpre c hc).1⟩ <;>
      simp [addPart, e2, enqueue, mergerEnqueue, mergerAddStream, isRootPartStart,
        hdr, hcnt, hlen, hout, hget, List.append_assoc]

/-- Claim C4: whenever `appendText` / `appendReasoning` starts a new part
(the append target being absent or of the other kind) on an open, unsealed
controller, exactly one root part-start chunk is emitted, one fresh value
is drawn from the shared counter, and the new part's sub-sequence is
registered with the merge stream behind the fixed path rewriter at that
same freshly assigned position — the position the part's delta chunks then
carry — which is distinct from the position of every previously registered
sub-sequence (assuming the registered positions are bounded by the
counter, as the shared drawing discipline guarantees). -/
theorem claim_C4 (k : TKind) (s : CtrlState) (d : String)
    (h1 : targetNotKind s k) (h2 : s.drained = false) (h3 : s.sealedFlag = false) :
    (appendDelta k s d).counter = s.counter + 1 ∧
    (appendDelta k s d).subs.length = s.subs.length + 1 ∧
    (appendDelta k s d).subs[s.subs.length]? =
      some ⟨s.counter + 1, SubKind.textLike, false, false⟩ ∧
    (appendDelta k s d).append = some ⟨k, s.subs.length⟩ ∧
    (∃ pre, (appendDelta k s d).output =
        s.output ++ pre ++ [⟨.partStart (partInitOf k), []⟩, ⟨.textDelta d, [s.counter + 1]⟩] ∧
      ∀ c ∈ pre, isRootPartStart c = false) ∧
    ((∀ c ∈ s.subs, c.index ≤ s.counter) → ∀ c ∈ s.subs, c.index ≠ s.counter + 1) := by
  have e1 : appendDelta k s d =
      subAppend { (addPart s (partInitOf k) .textLike).1 with
          append := some ⟨k, (addPart s (partInitOf k) .textLike).2⟩ }
        (addPart s (partInitOf k) .textLike).2 d := by
    unfold targetNotKind at h1
    cases k with
    | text =>
      show appendText s d = _
      unfold appendText addTextPart
      cases hap : s.append with
      | none => rfl
      | some t =>
        rw [hap] at h1
        obtain ⟨tk, tid⟩ := t
        have h1' : tk ≠ TKind.text := h1
        cases tk
        · exact absurd rfl h1'
        · rfl
    | reasoning =>
      show appendReasoning s d = _
      unfold appendReasoning addReasoningPart
      cases hap : s.append with
      | none => rfl
      | some t =>
        rw [hap] at h1
        obtain ⟨tk, tid⟩ := t
        have h1' : tk ≠ TKind.reasoning := h1
        cases tk
        · rfl
        · exact absurd rfl h1' 
  obtain ⟨hc1, hc2, hc3, hc4, _, hc6, pre, ho, hp⟩ :=
    addPart_spec s (partInitOf k) .textLike h2 h3
  have hS1 : ({ (addPart s (partInitOf k) .textLike).1 with
      append := some ⟨k, (addPart s (partInitOf k) .textLike).2⟩ } :
        CtrlState).subs[(addPart s (partInitOf k) .textLike).2]? =
      some ⟨s.counter + 1, SubKind.textLike, false, false⟩ := by
    rw [hc4]
    simpa using hc3
  obtain ⟨ha1, ha2, ha3, ha4⟩ := subAppend_open
    { (addPart s (partInitOf k) .textLike).1 with
        append := some ⟨k, (addPart s (partInitOf k) .textLike).2⟩ }
    (addPart s (partInitOf k) .textLike).2 d
    ⟨s.counter + 1, SubKind.textLike, false, false⟩ hS1 rfl (by simpa using hc6)
  refine ⟨?_, ?_, ?_, ?_, ⟨pre, ?_, hp⟩, ?_⟩
  · rw [e1, ha4]
    simpa using hc1
  · rw [e1, ha2]
    simpa using hc2
  · rw [e1, ha2]
    rw [show ({ (addPart s (partInitOf k) .textLike).1 with
        append := some ⟨k, (addPart s (partInitOf k) .textLike).2⟩ } :
          CtrlState).subs = (addPart s (partInitOf k) .textLike).1.subs from rfl]
    exact hc3
  · rw [e1, ha3, hc4]
  · rw [e1, ha1]
    rw [show ({ (addPart s (partInitOf k) .textLike).1 with
        append := some ⟨k, (addPart s (partInitOf k) .textLike).2⟩ } :
          CtrlState).output = (addPart s (partInitOf k) .textLike).1.output from rfl]
    rw [ho]
    simp [List.append_assoc]
  · intro hb c hcm heq
    have := hb c hcm
    omega

/-- Claim C4 witness: on the fresh controller, `appendText "a"` draws the
counter once, emits the part-start, and registers the new sub-sequence at
the corresponding position. -/
theorem claim_C4_witness :
    (appendDelta .text initSt "a").counter = initSt.counter + 1 ∧
    (appendDelta .text initSt "a").subs.length = initSt.subs.length + 1 ∧
    (appendDelta .text initSt "a").subs[initSt.subs.length]? =
      some ⟨initSt.counter + 1, SubKind.textLike, false, false⟩ ∧
    (appendDelta .text initSt "a").append = some ⟨.text, initSt.subs.length⟩ ∧
    (∃ pre, (appendDelta .text initSt "a").output =
        initSt.output ++ pre ++
          [⟨.partStart (partInitOf TKind.text), []⟩, ⟨.textDelta "a", [initSt.counter + 1]⟩] ∧
      ∀ c ∈ pre, isRootPartStart c = false) ∧
    ((∀ c ∈ initSt.subs, c.index ≤ initSt.counter) →
      ∀ c ∈ initSt.subs, c.index ≠ initSt.counter + 1) :=
  claim_C4 .text initSt "a" (by trivial) rfl rfl

/-- Claim C9 witness: after `appendText "a"` on the fresh controller,
merging an external sequence leaves the append target in place and the
next `appendText` continues the same part with only a delta chunk. -/
theorem claim_C9_witness :
    (merge (appendText initSt "a") [⟨.partStart .text, []⟩]).append =
      (appendText initSt "a").append ∧
    (merge (appendText initSt "a") [⟨.partStart .text, []⟩]).subs =
      (appendText initSt "a").subs ∧
    (appendDelta .text (merge (appendText initSt "a") [⟨.partStart .text, []⟩]) "b").output =
      (merge (appendText initSt "a") [⟨.partStart .text, []⟩]).output ++
        [⟨.textDelta "b", [1]⟩] ∧
    (appendDelta .text (merge (appendText initSt "a") [⟨.partStart .text, []⟩]) "b").append =
      (appendText initSt "a").append :=
  claim_C9 .text (appendText initSt "a") [⟨.partStart .text, []⟩] "b" 0
    ⟨1, SubKind.textLike, false, false⟩ rfl rfl rfl rfl

/-- Claim C10 witness: after `appendText "a"` then `close()`, a further
`appendText "c"` emits nothing and merely forwards the delta to the closed
sub-controller. -/
theorem claim_C10_witness :
    ((close (appendText initSt "a")).subs[0]?).map (fun c => c.closed) = some true ∧
    (appendDelta .text (close (appendText initSt "a")) "c").output =
      (close (appendText initSt "a")).output ∧
    (appendDelta .text (close (appendText initSt "a")) "c").subCalls =
      (close (appendText initSt "a")).subCalls ++ [SubCall.append 0 "c"] ∧
    (appendDelta .text (close (appendText initSt "a")) "c").append =
      (appendText initSt "a").append :=
  claim_C10 .text (appendText initSt "a") "c" 0 ⟨1, SubKind.textLike, false, false⟩ rfl rfl

/-- Root-path error chunks count additively over concatenation. -/
theorem rootErrorCount_append (a b : List AssistantStreamChunk) :
    rootErrorCount (a ++ b) = rootErrorCount a + rootErrorCount b := by
  simp [rootErrorCount, List.filter_append]

/-- The operation `close` never emits an error chunk. -/
theorem close_rootErrorCount (s : CtrlState) :
    rootErrorCount (close s).output = rootErrorCount s.output := by
  obtain ⟨_, _, _, _, _, _, t, ht, hp⟩ := close_frame s
  rw [ht, rootErrorCount_append]
  have hz : rootErrorCount t = 0 := by
    have : t.filter (fun c => isRootError c) = [] := by
      rw [List.filter_eq_nil_iff]
      intro a ha
      simp [(hp a ha).2]
    simp [rootErrorCount, this]
  omega

/-- Enqueueing a root error chunk on an open stream appends exactly that
chunk, raises the root-error count by one, and neither drains nor draws. -/
theorem enqueue_rootError (s : CtrlState) (e : String) (hd : s.drained = false) :
    (enqueue s ⟨.error e, []⟩).output = s.output ++ [⟨.error e, []⟩] ∧
    (enqueue s ⟨.error e, []⟩).drained = false ∧
    rootErrorCount (enqueue s ⟨.error e, []⟩).output = rootErrorCount s.output + 1 := by
  refine ⟨?_, ?_, ?_⟩ <;>
    simp [enqueue, mergerEnqueue, isRootPartStart, isRootError, hd,
      rootErrorCount, List.filter_append]

/-- Claim C3: when the driving computation throws synchronously and the
stream is not already closed, `createAssistantStream` enqueues exactly one
root-path error chunk (immediately after the computation's own output),
closes the stream, and re-raises the original failure to its caller. -/
theorem claim_C3 (prog : List Command) (e : String)
    (h : isClosed (runProg prog initSt) = false) :
    (createAssistantStream prog (some e)).thrown = some e ∧
    rootErrorCount (createAssistantStream prog (some e)).state.output =
      rootErrorCount (runProg prog initSt).output + 1 ∧
    (createAssistantStream prog (some e)).state.sealedFlag = true ∧
    ∃ tail, (createAssistantStream prog (some e)).state.output =
      (runProg prog initSt).output ++ ⟨.error e, []⟩ :: tail := by
  have hd : (runProg prog initSt).drained = false := h
  have hres : createAssistantStream prog (some e) =
      ⟨close (enqueue (runProg prog initSt) ⟨.error e, []⟩), some e⟩ := by
    unfold createAssistantStream
    simp [h]
  obtain ⟨ho, _, hcnt⟩ := enqueue_rootError (runProg prog initSt) e hd
  obtain ⟨_, _, _, hsf, _, _, t, ht, _⟩ :=
    close_frame (enqueue (runProg prog initSt) ⟨.error e, []⟩)
  refine ⟨by rw [hres], ?_, ?_, ?_⟩
  · rw [hres]
    show rootErrorCount (close (enqueue (runProg prog initSt) ⟨.error e, []⟩)).output = _
    rw [close_rootErrorCount, hcnt]
  · rw [hres]
    exact hsf
  · refine ⟨t, ?_⟩
    rw [hres]
    show (close (enqueue (runProg prog initSt) ⟨.error e, []⟩)).output = _
    rw [ht, ho]
    simp

/-- Claim C8: when the driving computation's deferred result rejects and
the stream is not already closed, the asynchronous completion path
enqueues exactly one root-path error chunk, closes the stream, and the
rejection is still surfaced to whatever awaits the original completion
rather than being swallowed. -/
theorem claim_C8 (prog : List Command) (e : String)
    (h : isClosed (runProg prog initSt) = false) :
    (createAssistantStreamAsync prog (some e)).thrown = some e ∧
    rootErrorCount (createAssistantStreamAsync prog (some e)).state.output =
      rootErrorCount (runProg prog initSt).output + 1 ∧
    (createAssistantStreamAsync prog (some e)).state.sealedFlag = true ∧
    ∃ tail, (createAssistantStreamAsync prog (some e)).state.output =
      (runProg prog initSt).output ++ ⟨.error e, []⟩ :: tail := by
  have hd : (runProg prog initSt).drained = false := h
  obtain ⟨ho, hd1, hcnt⟩ := enqueue_rootError (runProg prog initSt) e hd
  have hres : createAssistantStreamAsync prog (some e) =
      ⟨close (enqueue (runProg prog initSt) ⟨.error e, []⟩), some e⟩ := by
    unfold createAssistantStreamAsync
    simp only [h]
    simp [isClosed, h, hd1]
  obtain ⟨_, _, _, hsf, _, _, t, ht, _⟩ :=
    close_frame (enqueue (runProg prog initSt) ⟨.error e, []⟩)
  refine ⟨by rw [hres], ?_, ?_, ?_⟩
  · rw [hres]
    show rootErrorCount (close (enqueue (runProg prog initSt) ⟨.error e, []⟩)).output = _
    rw [close_rootErrorCount, hcnt]
  · rw [hres]
    exact hsf
  · refine ⟨t, ?_⟩
    rw [hres]
    show (close (enqueue (runProg prog initSt) ⟨.error e, []⟩)).output = _
    rw [ht, ho]
    simp

/-- Claim C3 witness: a computation that appends one text delta and then
throws "boom". -/
theorem claim_C3_witness :
    (createAssistantStream [Command.appendText "a"] (some "boom")).thrown = some "boom" ∧
    rootErrorCount (createAssistantStream [Command.appendText "a"] (some "boom")).state.output =
      rootErrorCount (runProg [Command.appendText "a"] initSt).output + 1 ∧
    (createAssistantStream [Command.appendText "a"] (some "boom")).state.sealedFlag = true ∧
    ∃ tail, (createAssistantStream [Command.appendText "a"] (some "boom")).state.output =
      (runProg [Command.appendText "a"] initSt).output ++ ⟨.error "boom", []⟩ :: tail :=
  claim_C3 [Command.appendText "a"] "boom" rfl

/-- Claim C8 witness: a deferred computation that appends one text delta
and then rejects with "boom". -/
theorem claim_C8_witness :
    (createAssistantStreamAsync [Command.appendText "a"] (some "boom")).thrown = some "boom" ∧
    rootErrorCount
        (createAssistantStreamAsync [Command.appendText "a"] (some "boom")).state.output =
      rootErrorCount (runProg [Command.appendText "a"] initSt).output + 1 ∧
    (createAssistantStreamAsync [Command.appendText "a"] (some "boom")).state.sealedFlag = true ∧
    ∃ tail, (createAssistantStreamAsync [Command.appendText "a"] (some "boom")).state.output =
      (runProg [Command.appendText "a"] initSt).output ++ ⟨.error "boom", []⟩ :: tail :=
  claim_C8 [Command.appendText "a"] "boom" rfl

/-- The non-collision invariant of the shared index generator: the values
drawn so far (one per observed root part-start) are strictly increasing,
and all of them lie below the counter's current value. -/
def DrawInv (s : CtrlState) : Prop :=
  s.draws.Pairwise (· < ·) ∧ ∀ x ∈ s.draws, x < s.counter

/-- The predicate `DrawInv` only depends on the draw list and the counter. -/
theorem drawInv_congr (s s' : CtrlState) (hd : s'.draws = s.draws)
    (hc : s'.counter = s.counter) (h : DrawInv s) : DrawInv s' := by
  unfold DrawInv at h ⊢
  rw [hd, hc]
  exact h

/-- Forwarding a chunk to the merge stream draws nothing. -/
theorem mergerEnqueue_drawsCounter (s : CtrlState) (c : AssistantStreamChunk) :
    (mergerEnqueue s c).draws = s.draws ∧ (mergerEnqueue s c).counter = s.counter := by
  unfold mergerEnqueue
  split <;> exact ⟨rfl, rfl⟩

/-- Registering a sub-stream draws nothing. -/
theorem mergerAddStream_drawsCounter (s : CtrlState) (c : SubController) :
    (mergerAddStream s c).draws = s.draws ∧ (mergerAddStream s c).counter = s.counter := by
  unfold mergerAddStream
  split <;> exact ⟨rfl, rfl⟩

/-- A sub-controller append draws nothing. -/
theorem subAppend_drawsCounter (s : CtrlState) (id : Nat) (d : String) :
    (subAppend s id d).draws = s.draws ∧ (subAppend s id d).counter = s.counter := by
  cases hc : s.subs[id]? with
  | none => refine ⟨?_, ?_⟩ <;> simp [subAppend, hc]
  | some c =>
    by_cases h : c.closed = true <;>
      refine ⟨?_, ?_⟩ <;> simp [subAppend, hc, h, mergerEnqueue]
    all_goals split <;> rfl

/-- A tool-call argument append draws nothing. -/
theorem subArgsAppend_drawsCounter (s : CtrlState) (id : Nat) (t : String) :
    (subArgsAppend s id t).draws = s.draws ∧ (subArgsAppend s id t).counter = s.counter := by
  cases hc : s.subs[id]? with
  | none => refine ⟨?_, ?_⟩ <;> simp [subArgsAppend, hc]
  | some c =>
    by_cases h : (c.closed || c.argsClosed) = true <;>
      refine ⟨?_, ?_⟩ <;> simp [subArgsAppend, hc, h, mergerEnqueue]
    all_goals split <;> rfl

/-- Closing the tool-call argument stream draws nothing. -/
theorem subArgsClose_drawsCounter (s : CtrlState) (id : Nat) :
    (subArgsClose s id).draws = s.draws ∧ (subArgsClose s id).counter = s.counter := by
  cases hc : s.subs[id]? with
  | none => refine ⟨?_, ?_⟩ <;> simp [subArgsClose, hc]
  | some c =>
    by_cases h : (c.closed || c.argsClosed) = true <;>
      refine ⟨?_, ?_⟩ <;> simp [subArgsClose, hc, h, mergerEnqueue]
    all_goals split <;> rfl

/-- Setting a tool-call result draws nothing. -/
theorem subSetResult_drawsCounter (s : CtrlState) (id : Nat) (v : JSONValue)
    (ie : Option Bool) :
    (subSetResult s id v ie).draws = s.draws ∧ (subSetResult s id v ie).counter = s.counter := by
  cases hc : s.subs[id]? with
  | none => refine ⟨?_, ?_⟩ <;> simp [subSetResult, hc]
  | some c =>
    by_cases h : c.closed = true <;>
      refine ⟨?_, ?_⟩ <;> simp [subSetResult, hc, h, mergerEnqueue]
    all_goals split <;> rfl

/-- Closing the current append target draws nothing. -/
theorem closeCurrentTarget_drawsCounter (s : CtrlState) :
    (closeCurrentTarget s).draws = s.draws ∧ (closeCurrentTarget s).counter = s.counter := by
  cases hap : s.append with
  | none =>
    unfold closeCurrentTarget
    rw [hap]
    exact ⟨rfl, rfl⟩
  | some t =>
    unfold closeCurrentTarget
    rw [hap]
    exact ⟨subClose_draws s t.id, subClose_counter s t.id⟩

/-- The operation `enqueue` preserves the non-collision invariant: a root part-start
draws the counter's current value, which exceeds every earlier draw. -/
theorem drawInv_enqueue (s : CtrlState) (c : AssistantStreamChunk) (h : DrawInv s) :
    DrawInv (enqueue s c) := by
  obtain ⟨h1, h2⟩ := h
  obtain ⟨hd, hc⟩ := mergerEnqueue_drawsCounter s c
  by_cases hr : isRootPartStart c = true
  · have hdraws : (enqueue s c).draws = s.draws ++ [s.counter] := by
      unfold enqueue
      rw [if_pos hr]
      simp [hd, hc]
    have hcounter : (enqueue s c).counter = s.counter + 1 := by
      unfold enqueue
      rw [if_pos hr]
      simp [hc]
    constructor
    · rw [hdraws, List.pairwise_append]
      refine ⟨h1, by simp, ?_⟩
      intro a ha b hb
      simp only [List.mem_singleton] at hb
      subst hb
      exact h2 a ha
    · rw [hdraws, hcounter]
      intro x hx
      rcases List.mem_append.1 hx with hx | hx
      · exact Nat.lt_succ_of_lt (h2 x hx)
      · simp only [List.mem_singleton] at hx
        subst hx
        exact Nat.lt_succ_self _
  · have hdraws : (enqueue s c).draws = s.draws := by
      unfold enqueue
      rw [if_neg hr]
      exact hd
    have hcounter : (enqueue s c).counter = s.counter := by
      unfold enqueue
      rw [if_neg hr]
      exact hc
    exact drawInv_congr s _ hdraws hcounter ⟨h1, h2⟩

/-- The dynamic path rewriter draws successive counter values: its draws
are strictly increasing, start at the initial counter value, and stay
below the final counter value, which never decreases. -/
theorem mergeRewrite_spec (ext : List AssistantStreamChunk) :
    ∀ (ctr : Nat) (map : List Nat),
      ctr ≤ (mergeRewrite ctr map ext).ctr ∧
      (mergeRewrite ctr map ext).draws.Pairwise (· < ·) ∧
      ∀ x ∈ (mergeRewrite ctr map ext).draws,
        ctr ≤ x ∧ x < (mergeRewrite ctr map ext).ctr := by
  induction ext with
  | nil => intro ctr map; simp [mergeRewrite]
  | cons c rest ih =>
    intro ctr map
    by_cases hr : isRootPartStart c = true
    · obtain ⟨ih1, ih2, ih3⟩ := ih (ctr + 1) (map ++ [ctr])
      refine ⟨?_, ?_, ?_⟩
      · simp only [mergeRewrite, hr, if_pos]
        omega
      · simp only [mergeRewrite, hr, if_pos]
        rw [List.pairwise_cons]
        exact ⟨fun x hx => Nat.lt_of_succ_le (ih3 x hx).1, ih2⟩
      · simp only [mergeRewrite, hr, if_pos]
        intro x hx
        rcases List.mem_cons.1 hx with hx | hx
        · subst hx
          exact ⟨Nat.le_refl _, Nat.lt_of_succ_le ih1⟩
        · exact ⟨Nat.le_of_succ_le (ih3 x hx).1, (ih3 x hx).2⟩
    · obtain ⟨ih1, ih2, ih3⟩ := ih ctr map
      refine ⟨?_, ?_, ?_⟩ <;> simp only [mergeRewrite, hr, if_neg, Bool.not_eq_true] <;>
        first
          | exact ih1
          | exact ih2
          | exact ih3

/-- The operation `merge` preserves the non-collision invariant: the dynamic rewriter's
draws continue the shared sequence past every earlier draw. -/
theorem drawInv_merge (s : CtrlState) (ext : List AssistantStreamChunk) (h : DrawInv s) :
    DrawInv (merge s ext) := by
  obtain ⟨h1, h2⟩ := h
  by_cases hd : s.drained = true
  · unfold merge
    rw [if_pos hd]
    exact ⟨h1, h2⟩
  · obtain ⟨m1, m2, m3⟩ := mergeRewrite_spec ext s.counter []
    have hdraws : (merge s ext).draws = s.draws ++ (mergeRewrite s.counter [] ext).draws := by
      simp [merge, hd]
    have hcounter : (merge s ext).counter = (mergeRewrite s.counter [] ext).ctr := by
      simp [merge, hd]
    constructor
    · rw [hdraws, List.pairwise_append]
      refine ⟨h1, m2, ?_⟩
      intro a ha b hb
      exact Nat.lt_of_lt_of_le (h2 a ha) (m3 b hb).1
    · rw [hdraws, hcounter]
      intro x hx
      rcases List.mem_append.1 hx with hx | hx
      · exact Nat.lt_of_lt_of_le (h2 x hx) m1
      · exact (m3 x hx).2

/-- Forwarding a delta to a sub-controller preserves the invariant. -/
theorem drawInv_subAppend (s : CtrlState) (id : Nat) (d : String) (h : DrawInv s) :
    DrawInv (subAppend s id d) := by
  obtain ⟨hd, hc⟩ := subAppend_drawsCounter s id d
  exact drawInv_congr _ _ hd hc h

/-- Appending tool-call argument text preserves the invariant. -/
theorem drawInv_subArgsAppend (s : CtrlState) (id : Nat) (t : String) (h : DrawInv s) :
    DrawInv (subArgsAppend s id t) := by
  obtain ⟨hd, hc⟩ := subArgsAppend_drawsCounter s id t
  exact drawInv_congr _ _ hd hc h

/-- Closing the tool-call argument text preserves the invariant. -/
theorem drawInv_subArgsClose (s : CtrlState) (id : Nat) (h : DrawInv s) :
    DrawInv (subArgsClose s id) := by
  obtain ⟨hd, hc⟩ := subArgsClose_drawsCounter s id
  exact drawInv_congr _ _ hd hc h

/-- Setting a tool-call result preserves the invariant. -/
theorem drawInv_subSetResult (s : CtrlState) (id : Nat) (v : JSONValue) (ie : Option Bool)
    (h : DrawInv s) : DrawInv (subSetResult s id v ie) := by
  obtain ⟨hd, hc⟩ := subSetResult_drawsCounter s id v ie
  exact drawInv_congr _ _ hd hc h

/-- The operation `addPart` preserves the non-collision invariant. -/
theorem drawInv_addPart (s : CtrlState) (part : PartInit) (kind : SubKind)
    (h : DrawInv s) : DrawInv (addPart s part kind).1 := by
  obtain ⟨hd, hc⟩ := closeCurrentTarget_drawsCounter s
  have h1 : DrawInv (enqueue (closeCurrentTarget s) ⟨.partStart part, []⟩) :=
    drawInv_enqueue _ _ (drawInv_congr s _ hd hc h)
  obtain ⟨hd2, hc2⟩ := mergerAddStream_drawsCounter
    (enqueue (closeCurrentTarget s) ⟨.partStart part, []⟩)
    ⟨(enqueue (closeCurrentTarget s) ⟨.partStart part, []⟩).counter, kind, false, false⟩
  exact drawInv_congr _ _ hd2 hc2 h1

/-- Every controller command preserves the non-collision invariant. -/
theorem drawInv_execCommand (s : CtrlState) (cmd : Command) (h : DrawInv s) :
    DrawInv (execCommand s cmd) := by
  cases cmd with
  | appendText d =>
    show DrawInv (appendText s d)
    cases hap : s.append with
    | none =>
      have e : appendText s d =
          subAppend { (addTextPart s).1 with append := some ⟨.text, (addTextPart s).2⟩ }
            (addTextPart s).2 d := by
        unfold appendText
        rw [hap]
      rw [e]
      obtain ⟨hd, hc⟩ := subAppend_drawsCounter
        { (addTextPart s).1 with append := some ⟨.text, (addTextPart s).2⟩ }
        (addTextPart s).2 d
      exact drawInv_congr _ _ hd hc (drawInv_addPart s .text .textLike h)
    | some t =>
      obtain ⟨tk, tid⟩ := t
      cases tk with
      | text =>
        have e : appendText s d = subAppend s tid d := by
          unfold appendText
          rw [hap]
        rw [e]
        obtain ⟨hd, hc⟩ := subAppend_drawsCounter s tid d
        exact drawInv_congr _ _ hd hc h
      | reasoning =>
        have e : appendText s d =
            subAppend { (addTextPart s).1 with append := some ⟨.text, (addTextPart s).2⟩ }
              (addTextPart s).2 d := by
          unfold appendText
          rw [hap]
        rw [e]
        obtain ⟨hd, hc⟩ := subAppend_drawsCounter
          { (addTextPart s).1 with append := some ⟨.text, (addTextPart s).2⟩ }
          (addTextPart s).2 d
        exact drawInv_congr _ _ hd hc (drawInv_addPart s .text .textLike h)
  | appendReasoning d =>
    show DrawInv (appendReasoning s d)
    cases hap : s.append with
    | none =>
      have e : appendReasoning s d =
          subAppend
            { (addReasoningPart s).1 with append := some ⟨.reasoning, (addReasoningPart s).2⟩ }
            (addReasoningPart s).2 d := by
        unfold appendReasoning
        rw [hap]
      rw [e]
      obtain ⟨hd, hc⟩ := subAppend_drawsCounter
        { (addReasoningPart s).1 with append := some ⟨.reasoning, (addReasoningPart s).2⟩ }
        (addReasoningPart s).2 d
      exact drawInv_congr _ _ hd hc (drawInv_addPart s .reasoning .textLike h)
    | some t =>
      obtain ⟨tk, tid⟩ := t
      cases tk with
      | reasoning =>
        have e : appendReasoning s d = subAppend s tid d := by
          unfold appendReasoning
          rw [hap]
        rw [e]
        obtain ⟨hd, hc⟩ := subAppend_drawsCounter s tid d
        exact drawInv_congr _ _ hd hc h
      | text =>
        have e : appendReasoning s d =
            subAppend
              { (addReasoningPart s).1 with append := some ⟨.reasoning, (addReasoningPart s).2⟩ }
              (addReasoningPart s).2 d := by
          unfold appendReasoning
          rw [hap]
        rw [e]
        obtain ⟨hd, hc⟩ := subAppend_drawsCounter
          { (addReasoningPart s).1 with append := some ⟨.reasoning, (addReasoningPart s).2⟩ }
          (addReasoningPart s).2 d
        exact drawInv_congr _ _ hd hc (drawInv_addPart s .reasoning .textLike h)
  | addTextPart => exact drawInv_addPart s .text .textLike h
  | addReasoningPart => exact drawInv_addPart s .reasoning .textLike h
  | addToolCallPart genId arg =>
    show DrawInv (addToolCallPart s genId arg).1
    have hbase := drawInv_addPart s
      (.toolCall (normalizeToolCallArg arg).toolName
        (((normalizeToolCallArg arg).toolCallId).getD genId)) .toolCall h
    simp only [addToolCallPart]
    cases hargs : (normalizeToolCallArg arg).args with
    | none =>
      cases hres : (normalizeToolCallArg arg).result with
      | none => exact hbase
      | some v => exact drawInv_subSetResult _ _ _ _ hbase
    | some a =>
      cases hres : (normalizeToolCallArg arg).result with
      | none => exact drawInv_subArgsClose _ _ (drawInv_subArgsAppend _ _ _ hbase)
      | some v =>
        exact drawInv_subSetResult _ _ _ _
          (drawInv_subArgsClose _ _ (drawInv_subArgsAppend _ _ _ hbase))
  | enqueue c => exact drawInv_enqueue s c h
  | merge ext => exact drawInv_merge s ext h
  | close =>
    show DrawInv (close s)
    obtain ⟨_, hc, hd, _, _, _, _⟩ := close_frame s
    exact drawInv_congr _ _ hd hc h
  | subAppend id d =>
    obtain ⟨hd, hc⟩ := subAppend_drawsCounter s id d
    exact drawInv_congr _ _ hd hc h
  | subClose id =>
    exact drawInv_congr _ _ (subClose_draws s id) (subClose_counter s id) h
  | subArgsAppend id t =>
    obtain ⟨hd, hc⟩ := subArgsAppend_drawsCounter s id t
    exact drawInv_congr _ _ hd hc h
  | subArgsClose id =>
    obtain ⟨hd, hc⟩ := subArgsClose_drawsCounter s id
    exact drawInv_congr _ _ hd hc h
  | subSetResult id v ie =>
    obtain ⟨hd, hc⟩ := subSetResult_drawsCounter s id v ie
    exact drawInv_congr _ _ hd hc h

/-- Claim C7: for every driving computation — interleaving parts started
directly by the controller (whose root part-starts draw the counter in
`enqueue`) with top-level parts arriving through `merge` (whose part-starts
draw the counter in the dynamic path rewriter) — the sequence of positions
drawn from the single shared index generator, in the order the part-start
chunks are observed, is strictly increasing and pairwise distinct. -/
theorem claim_C7 (prog : List Command) :
    ((runProg prog initSt).draws).Pairwise (· < ·) ∧
    ((runProg prog initSt).draws).Nodup := by
  have key : ∀ s, DrawInv s → DrawInv (runProg prog s) := by
    induction prog with
    | nil => intro s hs; exact hs
    | cons c cs ih =>
      intro s hs
      exact ih (execCommand s c) (drawInv_execCommand s c hs)
  have h0 : DrawInv initSt := ⟨List.Pairwise.nil, by intro x hx; simp [initSt] at hx⟩
  have := key initSt h0
  exact ⟨this.1, List.Pairwise.imp (fun hlt => Nat.ne_of_lt hlt) this.1⟩

end AssistantStreamControllerImpl
